import Mathlib

/-!
Verification of the email-and-calendar sync core of project01Backend.

The definitions below are a shallow embedding of the TypeScript source:
`src/routes/emails.ts` (sync, classification, reconciliation),
`src/services/llama.ts` (intent extraction) and
`src/sub_agents/gmail_agent/agent.ts` (agent-side fetch and classify).
Timestamps are modelled as milliseconds since the epoch (`Int`); JS string
truthiness (empty string is falsy) is made explicit; thrown-and-caught
exceptions are modelled by explicit branching.

The file is organised as definitions first, theorems second.
-/

namespace EmailCalendarSync

/-! ### JS-style string helpers -/

/-- JS truthiness of a string: falsy iff empty. -/
def strTruthy (s : String) : Bool := s ≠ ""

/-- `a || b` for strings under JS truthiness. -/
def orElse (a b : String) : String := if a = "" then b else a

/-- `x || b` where `x` is an optional (possibly absent) string field. -/
def optOrElse (a : Option String) (b : String) : String :=
  match a with
  | none => b
  | some s => if s = "" then b else s

/-- `x || b` for an optional numeric field (JS: `0` is falsy). -/
def optIntOr (a : Option Int) (b : Int) : Int :=
  match a with
  | none => b
  | some v => if v = 0 then b else v

/-- `String.prototype.trim()`: strip leading and trailing whitespace. -/
def jsTrim (s : String) : String :=
  ⟨((s.data.dropWhile Char.isWhitespace).reverse.dropWhile Char.isWhitespace).reverse⟩

/-- `s.toLowerCase()` (ASCII case folding suffices for the address tokens used here). -/
def jsToLower (s : String) : String := ⟨s.data.map Char.toLower⟩

/-- Helper of `jsSetDedup`: keep the elements not seen yet, first occurrences
    in order. -/
def jsSetDedupAux (seen : List String) : List String → List String
  | [] => []
  | a :: l => if a ∈ seen then jsSetDedupAux seen l else a :: jsSetDedupAux (a :: seen) l

/-- `[...new Set(l)]`: deduplication keeping the first occurrence of each
    element, as a JS `Set` does. -/
def jsSetDedup (l : List String) : List String := jsSetDedupAux [] l

/-! ### Signature Engine (routes/emails.ts:1009-1012)

`generateEventSignature` hashes
`` `${title || ""}|${location || ""}|${(attendees || []).join(",")}` ``
with SHA-256. The hash is a fixed deterministic function of this base
string, so two signatures computed by the code are equal exactly when the
base strings are equal, up to SHA-256 collisions; we model the hash as the
identity on the base (the usual collision-freeness idealisation). Equal
bases always give equal real signatures, so equality results transfer
unconditionally. -/

/-- The payload handed to the signature engine and the reconciler
    (`eventData` in routes/emails.ts). Times in epoch milliseconds. -/
structure EventData where
  title : String
  description : String
  startTime : Int
  endTime : Int
  location : String
  attendees : List String
deriving Repr, DecidableEq

/-- The pre-hash base string of `generateEventSignature`. -/
def signatureBase (e : EventData) : String :=
  e.title ++ "|" ++ e.location ++ "|" ++ String.intercalate "," e.attendees

/-- `generateEventSignature` (routes/emails.ts:1009): SHA-256 of `signatureBase`,
    with the hash modelled as the identity (see section comment). -/
def generateEventSignature (e : EventData) : String := signatureBase e

/-! ### Mailbox Cursor Tracker: fetch-mode decision

`syncHistory` (routes/emails.ts:298-324) attempts the incremental history
API only under `startHistoryId && !isNaN(Number(startHistoryId))`;
`GmailAgent.fetchRecentEmails` (agent.ts:147-170) branches on the bare
truthiness `if (lastHistoryId)` with no numeric check at all. -/

/-- Greedy run of decimal digits and the remaining characters. -/
def takeDigits : List Char → List Char × List Char
  | [] => ([], [])
  | c :: r =>
      if c.isDigit then
        let (d, rest) := takeDigits r
        (c :: d, rest)
      else ([], c :: r)

/-- Drop one leading `+` or `-`. -/
def stripSign : List Char → List Char
  | '+' :: r => r
  | '-' :: r => r
  | cs => cs

/-- Optional exponent part after the mantissa: empty, or `e`/`E` then a
    signed nonempty digit string. -/
def expTail : List Char → Bool
  | [] => true
  | 'e' :: r => (stripSign r ≠ []) && (stripSign r).all Char.isDigit
  | 'E' :: r => (stripSign r ≠ []) && (stripSign r).all Char.isDigit
  | _ => false

/-- Unsigned decimal literal: `digits [. digits] [exp]` or `. digits [exp]`. -/
def decLiteralOk (cs : List Char) : Bool :=
  let (ip, r1) := takeDigits cs
  match r1 with
  | '.' :: r2 =>
      let (fp, r3) := takeDigits r2
      (ip ≠ [] || fp ≠ []) && expTail r3
  | r1 => (ip ≠ []) && expTail r1

def isHexDigit (c : Char) : Bool :=
  c.isDigit || ('a' ≤ c && c ≤ 'f') || ('A' ≤ c && c ≤ 'F')

/-- Whether `Number(s)` evaluates to a non-NaN value, i.e. `!isNaN(Number(s))`,
    per the ECMAScript string-to-number grammar: after trimming, the empty
    string is `0`; otherwise a signed `Infinity`, an unsigned `0x`/`0o`/`0b`
    radix literal, or a signed decimal literal with optional fraction and
    exponent. -/
def jsNumberParses (s : String) : Bool :=
  let cs := (jsTrim s).data
  match cs with
  | [] => true
  | '0' :: 'x' :: r => (r ≠ []) && r.all isHexDigit
  | '0' :: 'X' :: r => (r ≠ []) && r.all isHexDigit
  | '0' :: 'o' :: r => (r ≠ []) && r.all (fun c => '0' ≤ c && c ≤ '7')
  | '0' :: 'O' :: r => (r ≠ []) && r.all (fun c => '0' ≤ c && c ≤ '7')
  | '0' :: 'b' :: r => (r ≠ []) && r.all (fun c => c = '0' || c = '1')
  | '0' :: 'B' :: r => (r ≠ []) && r.all (fun c => c = '0' || c = '1')
  | cs =>
      let body := stripSign cs
      body = "Infinity".data || decLiteralOk body

inductive FetchMode where
  | full : FetchMode
  | incremental : String → FetchMode
deriving Repr, DecidableEq

/-- JS truthiness of the optional `gmail_history_id` column. -/
def cursorTruthy : Option String → Bool
  | none => false
  | some s => s ≠ ""

/-- Fetch mode chosen by `syncHistory` (routes/emails.ts:300): history API iff
    `startHistoryId && !isNaN(Number(startHistoryId))`, else the recent-message
    list fallback. -/
def syncHistoryFetchMode (cursor : Option String) : FetchMode :=
  match cursor with
  | some s => if s ≠ "" && jsNumberParses s then .incremental s else .full
  | none => .full

/-- Fetch mode chosen by `GmailAgent.fetchRecentEmails` (agent.ts:147):
    incremental for any truthy `lastHistoryId`, full fetch otherwise. -/
def agentFetchMode (cursor : Option String) : FetchMode :=
  match cursor with
  | some s => if s ≠ "" then .incremental s else .full
  | none => .full

/-- The spec's side condition: present and parsing as a base-10 integer
    (a nonempty string of decimal digits). -/
def parsesAsBase10Int (s : String) : Bool := (s ≠ "") && s.data.all Char.isDigit

/-! ### Classification Pipeline

POST /process (routes/emails.ts:667-727) trims the completion output,
deletes every apostrophe and double-quote character
(`result.trim().replace(/['"]/g, "")`), and keeps the result only if it is
exactly one of the five categories, falling back to `"Other"` otherwise
(also on a thrown service error). `GmailAgent.classifyEmail`
(agent.ts:118-132) stores the trimmed output with no validation at all,
falling back to `"Other"` only on a service error. -/

/-- The closed category taxonomy (routes/emails.ts:668-674). -/
def validCategories : List String :=
  ["Prise de RDV", "Annulation", "Modification", "Information", "Other"]

/-- `s.replace(/['"]/g, "")`: delete every double-quote (code point 34) and
    apostrophe (code point 39). -/
def stripQuoteChars (s : String) : String :=
  ⟨s.data.filter (fun c => !(c.toNat = 34 || c.toNat = 39))⟩

/-- The `category` stored by POST /process for one email
    (routes/emails.ts:696-708); `none` models a thrown service error. -/
def processCategory (llmResult : Option String) : String :=
  match llmResult with
  | none => "Other"
  | some result =>
      let cleaned := stripQuoteChars (jsTrim result)
      if cleaned ∈ validCategories then cleaned else "Other"

/-- Label produced by `GmailAgent.classifyEmail` (agent.ts:118-132). -/
def agentClassifyLabel (llmResult : Option String) : String :=
  match llmResult with
  | none => "Other"
  | some r => jsTrim r

/-! ### Intent Extraction (services/llama.ts, `extractJson`, lines 73-139)

The raw completion output is modelled by what the JS runtime computes from
it: emptiness after trimming, the parse outcome of the first `{...}` span
of the cleaned text, and the email-regex matches over the raw output.
`new Date(v).toISOString()` on a truthy but unparseable date string throws
(`DateVal.invalid`), landing in the catch fallback. -/

inductive DateVal where
  | invalid : DateVal
  | valid : Int → DateVal
deriving Repr, DecidableEq

/-- The fields the code reads off the parsed JSON object; absent or JS-falsy
    values are `none`. -/
structure ParsedJson where
  title : Option String := none
  description : Option String := none
  startTime : Option DateVal := none
  endTime : Option DateVal := none
  location : Option String := none
  attendees : Option (List String) := none
deriving Repr, DecidableEq

/-- Outcome of `cleaned.match(/\x7b[\s\S]*\x7d/)` followed by `JSON.parse`. -/
inductive JsonOutcome where
  | noMatch : JsonOutcome
  | parseError : JsonOutcome
  | ok : ParsedJson → JsonOutcome
deriving Repr, DecidableEq

/-- A raw completion output, as observed by `extractJson`. -/
structure RawOutput where
  empty : Bool
  json : JsonOutcome
  emailTokens : List String
deriving Repr, DecidableEq

/-- The optional `fallback` argument of `extractJson` (every call in the
    repository passes the default `{}`). -/
structure Fallback where
  title : Option String := none
  description : Option String := none
  startTime : Option Int := none
  endTime : Option Int := none
  location : Option String := none
  sender : Option String := none
deriving Repr, DecidableEq

/-- The `{}` fallback used by every caller in the repository. -/
def emptyFallback : Fallback := {}

def hourMs : Int := 3600000

/-- Whether `new Date(field).toISOString()` would throw for this field. -/
def dateThrows : Option DateVal → Bool
  | some .invalid => true
  | _ => false

/-- `field ? new Date(field).toISOString() : default`, on non-throwing fields. -/
def dateOr (d : Option DateVal) (b : Int) : Int :=
  match d with
  | some (.valid t) => t
  | _ => b

/-- The catch branch of `extractJson` (llama.ts:120-138). -/
def catchFallback (fb : Fallback) (now : Int) (gmailAddress : String) : EventData :=
  { title := optOrElse fb.title "Untitled Event"
    description := optOrElse fb.description ""
    startTime := optIntOr fb.startTime now
    endTime := optIntOr fb.endTime (now + hourMs)
    location := optOrElse fb.location ""
    attendees := [optOrElse fb.sender "", gmailAddress].filter strTruthy }

/-- The `try` body after the JSON step (llama.ts:91-119): attendee
    normalisation over the parsed array, the raw-output address tokens, the
    fallback sender and the account address; time normalisation where an
    invalid date string throws into the catch branch. -/
def extractFromParsed (parsed : ParsedJson) (tokens : List String) (fb : Fallback)
    (now : Int) (gmailAddress : String) : EventData :=
  if dateThrows parsed.startTime || dateThrows parsed.endTime then
    catchFallback fb now gmailAddress
  else
    let start := dateOr parsed.startTime now
    { title := optOrElse parsed.title (optOrElse fb.title "Untitled Event")
      description := optOrElse parsed.description (optOrElse fb.description "")
      startTime := start
      endTime := dateOr parsed.endTime (start + hourMs)
      location := optOrElse parsed.location (optOrElse fb.location "")
      attendees := jsSetDedup
        ((parsed.attendees.getD [] ++ tokens
            ++ [optOrElse fb.sender "", gmailAddress]).filter strTruthy) }

/-- `LlamaService.extractJson` (llama.ts:73-139). Total: every branch returns
    a complete `EventData`. -/
def extractJson (raw : RawOutput) (fb : Fallback) (now : Int)
    (gmailAddress : String) : EventData :=
  if raw.empty then catchFallback fb now gmailAddress
  else
    match raw.json with
    | .parseError => catchFallback fb now gmailAddress
    | .noMatch => extractFromParsed {} raw.emailTokens fb now gmailAddress
    | .ok p => extractFromParsed p raw.emailTokens fb now gmailAddress

/-- Whether the extraction result's end time comes from a valid model-supplied
    `endTime` (raw output nonempty, JSON parses, the start field does not make
    date parsing throw, end field a valid date). -/
def suppliesValidEnd (raw : RawOutput) : Bool :=
  !raw.empty &&
    match raw.json with
    | .ok p =>
        !dateThrows p.startTime &&
          match p.endTime with
          | some (.valid _) => true
          | _ => false
    | _ => false

/-! ### POST /:id/sync-calendar: event assembly (routes/emails.ts:1053-1104) -/

/-- The columns of one `emails` row the route reads, with the email-regex
    matches of `email.body` carried as a list (`body.match(emailRegex) || []`)
    and `body.substring(0, 500)` carried as `bodyHead`. -/
structure EmailRow where
  id : String
  subject : String
  bodyHead : String
  bodyEmailTokens : List String
  sender : String
  category : String
deriving Repr, DecidableEq

/-- The eligibility gate of the route (routes/emails.ts:1048). -/
def eligibleCategories : List String := ["Prise de RDV", "Modification", "Annulation"]

/-- Steps 3-3b of the route (routes/emails.ts:1073-1104): run `extractJson`
    on the raw model output with the default empty fallback (`raw = none`
    models a thrown `generateResponse`, leaving `eventData = {}`), then apply
    the route's own defaults; the attendee list is unconditionally replaced by
    the deduplicated sender-plus-lowercased-body-tokens list. -/
def syncCalendarEventData (raw : Option RawOutput) (email : EmailRow)
    (now : Int) (gmailAddress : String) : EventData :=
  let extracted : Option EventData :=
    raw.map (fun r => extractJson r emptyFallback now gmailAddress)
  let defaultAttendees : List String :=
    jsSetDedup ((email.sender :: email.bodyEmailTokens.map jsToLower).filter strTruthy)
  { title := orElse (match extracted with | some e => e.title | none => "") email.subject
    description :=
      orElse (match extracted with | some e => e.description | none => "") email.bodyHead
    startTime := match extracted with | some e => e.startTime | none => now + 24 * hourMs
    endTime := match extracted with | some e => e.endTime | none => now + 25 * hourMs
    location := orElse (match extracted with | some e => e.location | none => "") ""
    attendees := jsSetDedup defaultAttendees }

/-- The attendee list the C10 claim asserts the reconciler consumes
    (spec §4.5 wording, for comparison with `syncCalendarEventData`):
    deduplicated union of the parsed JSON's attendees, every address token of
    the raw model output, the sender and the account's own address, falsy
    entries removed. -/
def claimedAttendeeUnion (parsedAttendees tokens : List String)
    (sender gmailAddress : String) : List String :=
  jsSetDedup ((parsedAttendees ++ tokens ++ [sender, gmailAddress]).filter strTruthy)

/-! ### Event Reconciler (routes/emails.ts:1106-1243)

Steps 4-9 of POST /:id/sync-calendar: compute the signature, look up the
`events` table by `(event_signature, user_id)`, then delete / update /
insert. External Google Calendar calls are best-effort: their success is
the `googleOk` parameter and only influences the `google_event_id`
backfill, never the local row bookkeeping. -/

/-- One row of the `events` table (columns the route reads/writes); `id` is
    modelled as a `Nat` drawn from the store's `nextId` counter. -/
structure EventRow where
  id : Nat
  user_id : String
  email_id : String
  google_event_id : Option String
  event_signature : String
  title : String
  description : String
  start_time : Int
  end_time : Int
  location : String
  attendees : List String
  raw_ai_output : String
deriving Repr, DecidableEq

/-- The `events` table plus its id generator. -/
structure EventStore where
  rows : List EventRow
  nextId : Nat
deriving Repr, DecidableEq

/-- The `maybeSingle()` lookup by `(event_signature, user_id)`
    (routes/emails.ts:1110-1115). -/
def findBySignature (st : EventStore) (userId sig : String) : Option EventRow :=
  st.rows.find? (fun r => r.user_id == userId && r.event_signature == sig)

inductive SyncAction where
  | ineligible : SyncAction
  | deleted : SyncAction
  | not_found : SyncAction
  | updated : SyncAction
  | created : SyncAction
deriving Repr, DecidableEq

structure SyncResult where
  store : EventStore
  action : SyncAction
  event : Option EventRow
deriving Repr, DecidableEq

/-- POST /:id/sync-calendar steps 2 and 4-9 (routes/emails.ts:1047-1243).
    `Annulation` deletes the found row by id (`not_found` if none); any other
    eligible category updates the found row in place (same id, same computed
    signature) or, when the lookup finds nothing, inserts a new local row
    first and then backfills `google_event_id` onto it when the external
    insert succeeds, reporting `created` either way. -/
def syncCalendar (st : EventStore) (userId : String) (email : EmailRow)
    (eventData : EventData) (rawAiOutput : String)
    (googleOk : Bool) (googleId : String) : SyncResult :=
  if email.category ∉ eligibleCategories then ⟨st, .ineligible, none⟩
  else
    let sig := generateEventSignature eventData
    match findBySignature st userId sig with
    | some ev =>
        if email.category = "Annulation" then
          ⟨⟨st.rows.filter (fun r => r.id ≠ ev.id), st.nextId⟩, .deleted, some ev⟩
        else
          let updated : EventRow :=
            { ev with
              title := eventData.title
              description := eventData.description
              start_time := eventData.startTime
              end_time := eventData.endTime
              location := eventData.location
              attendees := eventData.attendees
              raw_ai_output := rawAiOutput
              event_signature := sig
              email_id := email.id }
          ⟨⟨st.rows.map (fun r => if r.id = ev.id then updated else r), st.nextId⟩,
            .updated, some updated⟩
    | none =>
        if email.category = "Annulation" then ⟨st, .not_found, none⟩
        else
          let newRow : EventRow :=
            { id := st.nextId
              user_id := userId
              email_id := email.id
              google_event_id := none
              event_signature := sig
              title := eventData.title
              description := eventData.description
              start_time := eventData.startTime
              end_time := eventData.endTime
              location := eventData.location
              attendees := eventData.attendees
              raw_ai_output := rawAiOutput }
          let rows1 := st.rows ++ [newRow]
          if googleOk then
            ⟨⟨rows1.map (fun r =>
                  if r.id = newRow.id then { r with google_event_id := some googleId } else r),
                st.nextId + 1⟩,
              .created, some { newRow with google_event_id := some googleId }⟩
          else
            ⟨⟨rows1, st.nextId + 1⟩, .created, some newRow⟩

/-- One reconciliation request: the classified email, the assembled event
    payload, the raw model output, and the outcome of the external call. -/
structure ReconRequest where
  email : EmailRow
  eventData : EventData
  rawAiOutput : String
  googleOk : Bool
  googleId : String
deriving Repr, DecidableEq

/-- A sequence of sync-calendar reconciliations for one account. -/
def runSyncSeq (userId : String) (st : EventStore) : List ReconRequest → EventStore
  | [] => st
  | r :: rest =>
      runSyncSeq userId
        (syncCalendar st userId r.email r.eventData r.rawAiOutput r.googleOk r.googleId).store
        rest

/-- Number of live rows for one `(account, signature)` pair. -/
def countSig (st : EventStore) (u s : String) : Nat :=
  st.rows.countP (fun r => r.user_id == u && r.event_signature == s)

/-- Store well-formedness: row ids are pairwise distinct and below the id
    generator (which the uuid primary key of the `events` table guarantees). -/
def storeWF (st : EventStore) : Prop :=
  (st.rows.map (fun r => r.id)).Nodup ∧ ∀ r ∈ st.rows, r.id < st.nextId

/-! ### Message ingestion (routes/emails.ts:331-392, agent.ts:204-206)

`syncHistory` checks each fetched `gmail_id` against the `emails` table and
inserts only the unknown ones in one batch; the `emails.gmail_id` column is
`UNIQUE`, so a batch containing a duplicate id makes the whole insert fail
(error logged, no rows written). The store is modelled by its list of
`gmail_id` values. -/

/-- The per-message existence check (routes/emails.ts:347-366): keep the
    fetched ids not yet stored. -/
def newEmailIds (store msgs : List String) : List String :=
  msgs.filter (fun m => !store.contains m)

/-- The batch insert (routes/emails.ts:372-376) under the `gmail_id UNIQUE`
    constraint: all rows are appended if no conflict exists, none otherwise. -/
def insertEmailRows (store batch : List String) : List String :=
  if batch.Nodup ∧ ∀ b ∈ batch, b ∉ store then store ++ batch else store

/-- One full ingestion cycle over a fetched id batch. -/
def ingestCycle (store msgs : List String) : List String :=
  insertEmailRows store (newEmailIds store msgs)

/-! ### Effect traces of syncHistory and the push handler

For the store-before-cursor ordering claim, a sync run is modelled by the
sequence of external effects it performs. Per-message `messages.get` calls
(which never write) are elided. The locals of `syncHistory`
(routes/emails.ts:290-420) are mirrored by the helper functions below. -/

inductive SyncStep where
  | historyList : SyncStep
  | recentList : SyncStep
  | insertEmails : Nat → Bool → SyncStep
  | watchRefresh : SyncStep
  | cursorUpdate : String → SyncStep
deriving Repr, DecidableEq

/-- The line-300 guard: `startHistoryId && !isNaN(Number(startHistoryId))`. -/
def syncInc (c : Option String) : Bool :=
  cursorTruthy c && jsNumberParses (c.getD "")

/-- Provider responses a run can observe: `none` = the history call threw
    (caught at line 311); `some (ms, hid)` = it returned message refs `ms`
    and `historyId` `hid` (`none` for an absent field). -/
abbrev HistOutcome := Option (List String × Option String)

/-- Effects of the attempted history call. -/
def histPart (inc : Bool) : List SyncStep :=
  if inc then [.historyList] else []

/-- Message ids obtained from the history call (empty if skipped or thrown). -/
def histMsgs (inc : Bool) (h : HistOutcome) : List String :=
  if inc then (match h with | some (ms, _) => ms | none => []) else []

/-- `latestHistoryId` after the history attempt (line 306):
    `historyRes.data.historyId || startHistoryId`; unset if skipped/thrown. -/
def histLatest (inc : Bool) (h : HistOutcome) (start : String) : Option String :=
  if inc then
    match h with
    | some (_, hid) => some (optOrElse hid start)
    | none => none
  else none

/-- Line 316: fall back to the recent-message list when history yielded
    nothing. -/
def useFallback (inc : Bool) (h : HistOutcome) : Bool :=
  (histMsgs inc h).isEmpty

/-- Effects of the fetch phase. -/
def fetchPart (inc : Bool) (h : HistOutcome) : List SyncStep :=
  if useFallback inc h then histPart inc ++ [.recentList] else histPart inc

/-- The message batch the run proceeds with. -/
def syncMessages (inc : Bool) (h : HistOutcome) (recent : List String) : List String :=
  if useFallback inc h then recent else histMsgs inc h

/-- `latestHistoryId` after the fetch phase (line 323 forces a refresh on the
    fallback path). -/
def syncLatest (inc : Bool) (h : HistOutcome) (start : String) : Option String :=
  if useFallback inc h then none else histLatest inc h start

/-- Effects up to and including the batch insert (lines 331-392): the insert
    happens only when the new-email batch is nonempty, and `insertOk` records
    whether it succeeded. -/
def insertPart (inc : Bool) (h : HistOutcome) (recent known : List String)
    (insertOk : Bool) : List SyncStep :=
  if (newEmailIds known (syncMessages inc h recent)).length ≠ 0 then
    fetchPart inc h
      ++ [.insertEmails (newEmailIds known (syncMessages inc h recent)).length insertOk]
  else fetchPart inc h

/-- One `syncHistory` run (routes/emails.ts:290-420) as its effect sequence:
    fetch, early-return when no messages, insert the new batch, refresh the
    watch when no usable `latestHistoryId` remains, finally advance the
    cursor. Note the cursor is advanced even when the insert failed. -/
def syncHistoryTrace (c : Option String) (h : HistOutcome)
    (recent known : List String) (insertOk : Bool)
    (watchHistoryId : String) : List SyncStep :=
  if (syncMessages (syncInc c) h recent).isEmpty then fetchPart (syncInc c) h
  else
    match syncLatest (syncInc c) h (c.getD "") with
    | none =>
        insertPart (syncInc c) h recent known insertOk
          ++ [.watchRefresh, .cursorUpdate watchHistoryId]
    | some x => insertPart (syncInc c) h recent known insertOk ++ [.cursorUpdate x]

/-- The POST /push background task (routes/emails.ts:169-199): refresh the
    watch when the pushed historyId is missing or non-numeric, run
    `syncHistory` on `user.gmail_history_id || effectiveHistoryId`, then
    overwrite the cursor with the effective id. -/
def pushTrace (storedCursor notifHistoryId : Option String)
    (watchHistoryId : String) (h : HistOutcome)
    (recent known : List String) (insertOk : Bool) : List SyncStep :=
  let invalid := !(cursorTruthy notifHistoryId && jsNumberParses (notifHistoryId.getD ""))
  let pre : List SyncStep := if invalid then [.watchRefresh] else []
  let effectiveId := if invalid then watchHistoryId else notifHistoryId.getD ""
  pre
    ++ syncHistoryTrace (some (optOrElse storedCursor effectiveId)) h recent known insertOk
        watchHistoryId
    ++ [.cursorUpdate effectiveId]

/-- Ordering property: every insert attempt occurs strictly before every
    cursor update in the trace. -/
def insertsPrecedeCursor (tr : List SyncStep) : Prop :=
  ∀ (i j n : Nat) (ok : Bool) (v : String),
    tr[i]? = some (SyncStep.insertEmails n ok) →
      tr[j]? = some (SyncStep.cursorUpdate v) → i < j

/-! ### Concrete inputs for counterexamples and witnesses -/

/-- A model output whose parsed JSON carries an end time before its start
    time. -/
def reversedTimesRaw : RawOutput :=
  { empty := false
    json := .ok { startTime := some (.valid 3600000), endTime := some (.valid 0) }
    emailTokens := [] }

/-- A model output with no JSON object but one address token. -/
def plainRaw : RawOutput :=
  { empty := false, json := .noMatch, emailTokens := ["x@y.co"] }

/-- A model output whose JSON carries an attendees array, with a further
    address token in the raw text. -/
def tokenRaw : RawOutput :=
  { empty := false
    json := .ok { attendees := some ["p@q.co"] }
    emailTokens := ["z@y.co"] }

/-- A booking email with no address tokens in the body. -/
def bookingEmail : EmailRow :=
  { id := "e1", subject := "Meeting with Bob", bodyHead := "body"
    bodyEmailTokens := [], sender := "s@x.co", category := "Prise de RDV" }

/-- A modification email for the same content. -/
def modifEmail : EmailRow :=
  { bookingEmail with id := "e2", category := "Modification" }

/-- A concrete intent payload. -/
def sampleEventData : EventData :=
  { title := "Meeting with Bob", description := "d", startTime := 0, endTime := 3600000
    location := "Paris", attendees := ["s@x.co"] }

/-- Booking then modification of the same content, external call failing then
    succeeding. -/
def sampleOps : List ReconRequest :=
  [⟨bookingEmail, sampleEventData, "raw1", false, "g1"⟩,
   ⟨modifEmail, sampleEventData, "raw2", true, "g2"⟩]

/-- The empty event store. -/
def emptyStore : EventStore := ⟨[], 0⟩

end EmailCalendarSync

namespace EmailCalendarSync

/-! ## Theorems -/

theorem mem_jsSetDedupAux : ∀ (l seen : List String) (x : String),
    x ∈ jsSetDedupAux seen l ↔ x ∈ l ∧ x ∉ seen := by
  intro l
  induction l with
  | nil => simp [jsSetDedupAux]
  | cons a l ih =>
    intro seen x
    by_cases h : a ∈ seen
    · rw [jsSetDedupAux, if_pos h, ih]
      simp only [List.mem_cons]
      constructor
      · rintro ⟨hx, hns⟩
        exact ⟨Or.inr hx, hns⟩
      · rintro ⟨rfl | hx, hns⟩
        · exact absurd h hns
        · exact ⟨hx, hns⟩
    · rw [jsSetDedupAux, if_neg h]
      simp only [List.mem_cons, ih, List.mem_cons, not_or]
      constructor
      · rintro (rfl | ⟨hx, hna, hns⟩)
        · exact ⟨Or.inl rfl, h⟩
        · exact ⟨Or.inr hx, hns⟩
      · rintro ⟨rfl | hx, hns⟩
        · exact Or.inl rfl
        · by_cases hxa : x = a
          · exact Or.inl hxa
          · exact Or.inr ⟨hx, hxa, hns⟩

theorem jsSetDedupAux_nodup : ∀ (l seen : List String), (jsSetDedupAux seen l).Nodup := by
  intro l
  induction l with
  | nil => intro seen; simp [jsSetDedupAux]
  | cons a l ih =>
    intro seen
    by_cases h : a ∈ seen
    · rw [jsSetDedupAux, if_pos h]
      exact ih seen
    · rw [jsSetDedupAux, if_neg h]
      refine List.nodup_cons.mpr ⟨?_, ih (a :: seen)⟩
      intro hmem
      rcases (mem_jsSetDedupAux l (a :: seen) a).mp hmem with ⟨_, hna⟩
      exact hna (by simp)

theorem mem_jsSetDedup (l : List String) (x : String) : x ∈ jsSetDedup l ↔ x ∈ l := by
  rw [jsSetDedup, mem_jsSetDedupAux]
  simp

theorem jsSetDedup_nodup (l : List String) : (jsSetDedup l).Nodup :=
  jsSetDedupAux_nodup l []

theorem string_data_inj {a b : String} (h : a.data = b.data) : a = b :=
  congrArg String.mk h

theorem signatureBase_data (e : EventData) :
    (signatureBase e).data
      = e.title.data ++ '|' :: (e.location.data
          ++ '|' :: (String.intercalate "," e.attendees).data) := by
  simp [signatureBase, String.data_append]

/-- C2. Signature stability under time change: `generateEventSignature` reads
    only title, location and attendees, so two intents agreeing on those three
    fields get the same signature whatever their start/end timestamps are. -/
theorem signature_time_stability (e1 e2 : EventData)
    (ht : e1.title = e2.title) (hl : e1.location = e2.location)
    (ha : e1.attendees = e2.attendees) :
    generateEventSignature e1 = generateEventSignature e2 := by
  simp [generateEventSignature, signatureBase, ht, hl, ha]

theorem signature_time_stability_witness :
    generateEventSignature ⟨"Meeting", "d", 0, 3600000, "Paris", ["a@b.co"]⟩
      = generateEventSignature ⟨"Meeting", "d", 86400000, 90000000, "Paris", ["a@b.co"]⟩ :=
  signature_time_stability _ _ rfl rfl rfl

/-- C9 (counterexample). Changing an attendee of the attendee list, the title
    and location staying equal, does NOT always change the signature: the
    attendee lists `["a","b"]` and `["a,b"]` are joined by `","` to the same
    string, so the pre-hash base strings — and hence the SHA-256 signatures —
    coincide. -/
theorem signature_sensitivity_counterexample :
    (⟨"t", "d", 0, 1, "l", ["a", "b"]⟩ : EventData).attendees
        ≠ (⟨"t", "d", 0, 1, "l", ["a,b"]⟩ : EventData).attendees
      ∧ generateEventSignature ⟨"t", "d", 0, 1, "l", ["a", "b"]⟩
          = generateEventSignature ⟨"t", "d", 0, 1, "l", ["a,b"]⟩ := by
  exact ⟨by decide, by decide⟩

/-- C9 (amended). Signature sensitivity holds at the level of the hashed base
    string: a change of title alone, or of location alone, always changes the
    signature; a change of the attendee list changes the signature exactly
    when it changes the comma-joined attendee string (which a comma embedded
    in an attendee can defeat, as the counterexample shows). -/
theorem signature_sensitivity (e1 e2 : EventData) :
    (e1.location = e2.location → e1.attendees = e2.attendees → e1.title ≠ e2.title →
        generateEventSignature e1 ≠ generateEventSignature e2)
    ∧ (e1.title = e2.title → e1.attendees = e2.attendees → e1.location ≠ e2.location →
        generateEventSignature e1 ≠ generateEventSignature e2)
    ∧ (e1.title = e2.title → e1.location = e2.location →
        String.intercalate "," e1.attendees ≠ String.intercalate "," e2.attendees →
        generateEventSignature e1 ≠ generateEventSignature e2) := by
  refine ⟨?_, ?_, ?_⟩ <;> intro h1 h2 hne hsig
  all_goals
    have hd : (signatureBase e1).data = (signatureBase e2).data :=
      congrArg String.data hsig
    rw [signatureBase_data, signatureBase_data] at hd
  · rw [h1, h2] at hd
    exact hne (string_data_inj (List.append_cancel_right hd))
  · rw [h1, h2] at hd
    have h3 := List.append_cancel_left hd
    injection h3 with _ h4
    exact hne (string_data_inj (List.append_cancel_right h4))
  · rw [h1, h2] at hd
    have h3 := List.append_cancel_left hd
    injection h3 with _ h4
    have h5 := List.append_cancel_left h4
    injection h5 with _ h6
    exact hne (string_data_inj h6)

theorem signature_sensitivity_witness :
    generateEventSignature ⟨"t1", "d", 0, 1, "l", ["a"]⟩
        ≠ generateEventSignature ⟨"t2", "d", 0, 1, "l", ["a"]⟩
      ∧ generateEventSignature ⟨"t", "d", 0, 1, "l1", ["a"]⟩
          ≠ generateEventSignature ⟨"t", "d", 0, 1, "l2", ["a"]⟩
      ∧ generateEventSignature ⟨"t", "d", 0, 1, "l", ["a"]⟩
          ≠ generateEventSignature ⟨"t", "d", 0, 1, "l", ["b"]⟩ :=
  ⟨(signature_sensitivity _ _).1 rfl rfl (by decide),
   (signature_sensitivity _ _).2.1 rfl rfl (by decide),
   (signature_sensitivity _ _).2.2 rfl rfl (by decide)⟩

/-- C3 (counterexample). Not every sync entry point restricts incremental mode
    to numeric-parseable cursors: `GmailAgent.fetchRecentEmails` picks the
    incremental history call for the cursor `"not-a-number"`, and `syncHistory`
    picks it for `"12.5"`, which is numeric-parseable but not a base-10
    integer. -/
theorem fetch_mode_claim_counterexample :
    agentFetchMode (some "not-a-number") = .incremental "not-a-number"
      ∧ parsesAsBase10Int "not-a-number" = false
      ∧ syncHistoryFetchMode (some "12.5") = .incremental "12.5"
      ∧ parsesAsBase10Int "12.5" = false := by
  refine ⟨by decide, by decide, ?_, by decide⟩
  decide

/-- C3 (amended). `syncHistory` resolves to incremental iff the stored cursor
    is truthy and `Number(cursor)` is not NaN (so `"not-a-number"` falls back
    to the full fetch there), while `GmailAgent.fetchRecentEmails` resolves to
    incremental iff the cursor is truthy, numeric or not; an absent or empty
    cursor yields a full fetch at both entry points. -/
theorem fetch_mode_decision (s : String) :
    (syncHistoryFetchMode (some s) = .incremental s ↔ s ≠ "" ∧ jsNumberParses s = true)
      ∧ (¬(s ≠ "" ∧ jsNumberParses s = true) → syncHistoryFetchMode (some s) = .full)
      ∧ (agentFetchMode (some s) = .incremental s ↔ s ≠ "")
      ∧ (s = "" → agentFetchMode (some s) = .full)
      ∧ syncHistoryFetchMode none = .full ∧ agentFetchMode none = .full := by
  refine ⟨?_, ?_, ?_, ?_, rfl, rfl⟩
  · unfold syncHistoryFetchMode
    by_cases h : s = "" <;> by_cases hn : jsNumberParses s = true <;>
      simp [h, hn]
  · unfold syncHistoryFetchMode
    by_cases h : s = "" <;> by_cases hn : jsNumberParses s = true <;>
      simp [h, hn]
  · unfold agentFetchMode
    by_cases h : s = "" <;> simp [h]
  · intro h
    simp [agentFetchMode, h]

theorem fetch_mode_decision_witness :
    syncHistoryFetchMode (some "abc") = .full ∧ agentFetchMode (some "") = .full :=
  ⟨(fetch_mode_decision "abc").2.1 (by decide), (fetch_mode_decision "").2.2.2.1 rfl⟩

/-- C4 (counterexample). The stored label is not always `"Other"` when the
    trimmed output misses the category set: POST /process also deletes quote
    characters before matching, so a quoted category name is stored as the
    category itself; and `GmailAgent.classifyEmail` stores any trimmed output
    unvalidated, so labels outside the closed five-category set are stored. -/
theorem classification_closure_counterexample :
    processCategory (some "\"Prise de RDV\"") = "Prise de RDV"
      ∧ jsTrim "\"Prise de RDV\"" ∉ validCategories
      ∧ "Prise de RDV" ≠ "Other"
      ∧ agentClassifyLabel (some "Booking request") = "Booking request"
      ∧ "Booking request" ∉ validCategories := by
  refine ⟨by decide, by decide, by decide, by decide, by decide⟩

/-- C4 (amended). In POST /process the raw output is trimmed AND stripped of
    quote characters before the exact match against the closed category set;
    every label this route stores is in the set, and any output whose trimmed,
    quote-stripped form misses the set is coerced to `"Other"`. (The agent
    path performs no such validation, per the counterexample.) -/
theorem classification_closure :
    (∀ r : Option String, processCategory r ∈ validCategories)
      ∧ ∀ s : String, stripQuoteChars (jsTrim s) ∉ validCategories →
          processCategory (some s) = "Other" := by
  constructor
  · rintro (_ | s)
    · decide
    · show (if stripQuoteChars (jsTrim s) ∈ validCategories
          then stripQuoteChars (jsTrim s) else "Other") ∈ validCategories
      split
      · assumption
      · decide
  · intro s h
    show (if stripQuoteChars (jsTrim s) ∈ validCategories
        then stripQuoteChars (jsTrim s) else "Other") = "Other"
    rw [if_neg h]

theorem classification_closure_witness :
    processCategory (some "a booking email") = "Other" :=
  classification_closure.2 "a booking email" (by decide)

theorem optOrElse_ne_empty (a : Option String) {b : String} (hb : b ≠ "") :
    optOrElse a b ≠ "" := by
  cases a with
  | none => exact hb
  | some s =>
    by_cases h : s = ""
    · rw [optOrElse, if_pos h]
      exact hb
    · rw [optOrElse, if_neg h]
      exact h

theorem catchFallback_empty (now : Int) (g : String) :
    catchFallback emptyFallback now g
      = { title := "Untitled Event", description := "", startTime := now,
          endTime := now + hourMs, location := "",
          attendees := if strTruthy g then [g] else [] } := by
  by_cases h : g = "" <;>
    simp [catchFallback, emptyFallback, optOrElse, optIntOr, List.filter, strTruthy, h]

theorem catchFallback_empty_props (now : Int) (g : String) :
    (catchFallback emptyFallback now g).title ≠ ""
      ∧ (catchFallback emptyFallback now g).attendees.Nodup
      ∧ (catchFallback emptyFallback now g).startTime
          < (catchFallback emptyFallback now g).endTime := by
  rw [catchFallback_empty]
  refine ⟨?_, ?_, ?_⟩
  · show "Untitled Event" ≠ ""
    decide
  · show (if strTruthy g then [g] else []).Nodup
    split <;> simp
  · show now < now + hourMs
    simp only [hourMs]
    omega

/-- C5 (counterexample). Extraction does not always return a window with
    start strictly before end: a model output whose parsed JSON supplies an
    end time at or before its start time is used verbatim. -/
theorem extraction_window_counterexample :
    ¬((extractJson reversedTimesRaw emptyFallback 0 "").startTime
        < (extractJson reversedTimesRaw emptyFallback 0 "").endTime) := by
  decide

/-- C5 (amended). For arbitrary model output and the repository's empty
    fallback, extraction is total and structurally complete: the intent has a
    non-empty title and a deduplicated attendee list, and its window satisfies
    start < end whenever the output does not itself supply a valid end
    timestamp (an output supplying one is used verbatim and may invert the
    window, per the counterexample). -/
theorem extraction_totality (raw : RawOutput) (now : Int) (g : String) :
    (extractJson raw emptyFallback now g).title ≠ ""
      ∧ (extractJson raw emptyFallback now g).attendees.Nodup
      ∧ (suppliesValidEnd raw = false →
          (extractJson raw emptyFallback now g).startTime
            < (extractJson raw emptyFallback now g).endTime) := by
  have hstep : ∀ p : ParsedJson, ∀ tokens : List String,
      (extractFromParsed p tokens emptyFallback now g).title ≠ ""
        ∧ (extractFromParsed p tokens emptyFallback now g).attendees.Nodup
        ∧ ((!dateThrows p.startTime
              && (match p.endTime with | some (.valid _) => true | _ => false)) = false →
            (extractFromParsed p tokens emptyFallback now g).startTime
              < (extractFromParsed p tokens emptyFallback now g).endTime) := by
    intro p tokens
    unfold extractFromParsed
    by_cases hth : (dateThrows p.startTime || dateThrows p.endTime) = true
    · rw [if_pos hth]
      exact ⟨(catchFallback_empty_props now g).1, (catchFallback_empty_props now g).2.1,
        fun _ => (catchFallback_empty_props now g).2.2⟩
    · rw [if_neg hth]
      rw [Bool.or_eq_true, not_or, Bool.not_eq_true, Bool.not_eq_true] at hth
      refine ⟨?_, jsSetDedup_nodup _, ?_⟩
      · exact optOrElse_ne_empty _ (optOrElse_ne_empty _ (by decide))
      · intro hend
        rw [hth.1, Bool.not_false, Bool.true_and] at hend
        rcases he : p.endTime with _ | ⟨⟩ | t
        · simp only [dateOr, he, hourMs]
          omega
        · exact absurd he (by intro hc; rw [hc] at hth; exact absurd hth.2 (by simp [dateThrows]))
        · rw [he] at hend
          simp at hend
  have hcatch := catchFallback_empty_props now g
  unfold extractJson
  by_cases hemp : raw.empty = true
  · rw [if_pos hemp]
    exact ⟨hcatch.1, hcatch.2.1, fun _ => hcatch.2.2⟩
  · rw [if_neg hemp]
    have hempf : raw.empty = false := by
      revert hemp; cases raw.empty <;> simp
    rcases hj : raw.json with _ | _ | p
    · exact ⟨(hstep {} raw.emailTokens).1, (hstep {} raw.emailTokens).2.1,
        fun _ => (hstep {} raw.emailTokens).2.2 (by rfl)⟩
    · exact ⟨hcatch.1, hcatch.2.1, fun _ => hcatch.2.2⟩
    · refine ⟨(hstep p raw.emailTokens).1, (hstep p raw.emailTokens).2.1, fun hsup => ?_⟩
      refine (hstep p raw.emailTokens).2.2 ?_
      unfold suppliesValidEnd at hsup
      rw [hj, hempf] at hsup
      simpa using hsup

theorem extraction_totality_witness :
    (extractJson plainRaw emptyFallback 0 "me@g.co").title ≠ ""
      ∧ (extractJson plainRaw emptyFallback 0 "me@g.co").attendees.Nodup
      ∧ (extractJson plainRaw emptyFallback 0 "me@g.co").startTime
          < (extractJson plainRaw emptyFallback 0 "me@g.co").endTime :=
  ⟨(extraction_totality plainRaw 0 "me@g.co").1,
   (extraction_totality plainRaw 0 "me@g.co").2.1,
   (extraction_totality plainRaw 0 "me@g.co").2.2 (by decide)⟩

/-- C10 (counterexample). The attendee list the reconciler consumes is NOT the
    claimed union: the route discards the parsed JSON's attendees, the raw
    output's address tokens and the account's own address — here the raw
    output token `"z@y.co"` and the account address `"me@g.co"` are in the
    claimed union but absent from the consumed list, which is just the
    sender. -/
theorem reconciler_attendees_counterexample :
    (syncCalendarEventData (some tokenRaw) bookingEmail 0 "me@g.co").attendees = ["s@x.co"]
      ∧ "me@g.co" ∈ claimedAttendeeUnion ["p@q.co"] ["z@y.co"] "s@x.co" "me@g.co"
      ∧ "me@g.co" ∉ (syncCalendarEventData (some tokenRaw) bookingEmail 0 "me@g.co").attendees
      ∧ "z@y.co" ∈ claimedAttendeeUnion ["p@q.co"] ["z@y.co"] "s@x.co" "me@g.co"
      ∧ "z@y.co" ∉ (syncCalendarEventData (some tokenRaw) bookingEmail 0 "me@g.co").attendees := by
  decide

/-- C10 (amended). The attendee list consumed by the reconciler is the
    deduplicated list of the message sender and the lowercased email-shaped
    tokens of the message body, falsy entries removed; it does not depend on
    the model output, the account address, or the clock. -/
theorem reconciler_attendees (raw raw2 : Option RawOutput) (email : EmailRow)
    (now now2 : Int) (g g2 : String) :
    (∀ x, x ∈ (syncCalendarEventData raw email now g).attendees ↔
        ((x = email.sender ∨ x ∈ email.bodyEmailTokens.map jsToLower) ∧ x ≠ ""))
      ∧ (syncCalendarEventData raw email now g).attendees.Nodup
      ∧ (syncCalendarEventData raw email now g).attendees
          = (syncCalendarEventData raw2 email now2 g2).attendees := by
  refine ⟨?_, jsSetDedup_nodup _, rfl⟩
  intro x
  show x ∈ jsSetDedup (jsSetDedup
      ((email.sender :: email.bodyEmailTokens.map jsToLower).filter strTruthy)) ↔ _
  rw [mem_jsSetDedup, mem_jsSetDedup, List.mem_filter]
  simp [strTruthy]

theorem reconciler_attendees_witness :
    (syncCalendarEventData (some tokenRaw) bookingEmail 0 "a").attendees.Nodup :=
  (reconciler_attendees (some tokenRaw) none bookingEmail 0 1 "a" "b").2.1

theorem findBySignature_none_countP (st : EventStore) (userId sig : String)
    (h : findBySignature st userId sig = none) :
    st.rows.countP (fun r => r.user_id == userId && r.event_signature == sig) = 0 := by
  rw [List.countP_eq_zero]
  intro r hr
  exact List.find?_eq_none.mp h r hr

theorem countP_congr_bool {α : Type} (l : List α) {p : α → Bool} (q : α → Bool)
    (h : ∀ a ∈ l, p a = q a) : l.countP p = l.countP q :=
  List.countP_congr (fun x hx => by rw [h x hx])

/-- One reconciliation step keeps every `(account, signature)` row count at
    most one, on a well-formed store. -/
theorem countSig_syncCalendar_le (st : EventStore) (userId : String) (email : EmailRow)
    (ed : EventData) (raw : String) (gok : Bool) (gid : String)
    (hwf : storeWF st) (u s : String) (hle : countSig st u s ≤ 1) :
    countSig (syncCalendar st userId email ed raw gok gid).store u s ≤ 1 := by
  by_cases helig : email.category ∈ eligibleCategories
  case neg =>
    simp only [syncCalendar, if_pos helig]
    exact hle
  case pos =>
    simp only [syncCalendar]
    rw [if_neg (not_not_intro helig)]
    rcases hfind : findBySignature st userId (generateEventSignature ed) with _ | ev
    case none =>
      by_cases hann : email.category = "Annulation"
      · rw [if_pos hann]
        exact hle
      · rw [if_neg hann]
        unfold countSig at hle ⊢
        have hsingle :
            List.countP (fun r => r.user_id == u && r.event_signature == s) st.rows
              + (0 + if ((userId == u) && ((generateEventSignature ed : String) == s)) = true
                    then 1 else 0) ≤ 1 := by
          by_cases hP : ((userId == u) && ((generateEventSignature ed : String) == s)) = true
          · rw [Bool.and_eq_true, beq_iff_eq, beq_iff_eq] at hP
            obtain ⟨hu, hs⟩ := hP
            have h0 : List.countP (fun r => r.user_id == u && r.event_signature == s)
                st.rows = 0 := by
              rw [← hu, ← hs]
              exact findBySignature_none_countP st userId _ hfind
            rw [h0]
            split <;> omega
          · rw [if_neg hP]
            omega
        cases gok
        -- external failure: plain append of the new local row
        · simp only [Bool.false_eq_true, if_false]
          rw [List.countP_append, List.countP_cons, List.countP_nil]
          exact hsingle
        -- external success: the google-id backfill map preserves the predicate
        · rw [if_pos rfl]
          rw [List.countP_map]
          rw [countP_congr_bool _ (fun r => r.user_id == u && r.event_signature == s)
            (fun r _ => by by_cases hid : r.id = st.nextId <;> simp [Function.comp, hid])]
          rw [List.countP_append, List.countP_cons, List.countP_nil]
          exact hsingle
    case some =>
      have hmem := List.mem_of_find?_eq_some hfind
      have hev := List.find?_some hfind
      rw [Bool.and_eq_true, beq_iff_eq, beq_iff_eq] at hev
      by_cases hann : email.category = "Annulation"
      · simp only [if_pos hann]
        unfold countSig at hle ⊢
        exact le_trans (List.Sublist.countP_le _ (List.filter_sublist _)) hle
      · simp only [if_neg hann]
        unfold countSig at hle ⊢
        rw [List.countP_map,
          countP_congr_bool _ (fun r => r.user_id == u && r.event_signature == s)
            (fun r hr => by
              by_cases hid : r.id = ev.id
              · have hre : r = ev := List.inj_on_of_nodup_map hwf.1 hr hmem hid
                subst hre
                simp [Function.comp, hid, hev.2]
              · simp [Function.comp, hid])]
        exact hle

theorem storeWF_filter (st : EventStore) (p : EventRow → Bool) (hwf : storeWF st) :
    storeWF ⟨st.rows.filter p, st.nextId⟩ := by
  obtain ⟨hnd, hlt⟩ := hwf
  refine ⟨?_, ?_⟩
  · exact List.Nodup.sublist (List.Sublist.map _ (List.filter_sublist _)) hnd
  · intro r hr
    exact hlt r (List.mem_of_mem_filter hr)

theorem storeWF_map_id_preserving (st : EventStore) (f : EventRow → EventRow)
    (hf : ∀ r, (f r).id = r.id) (hwf : storeWF st) :
    storeWF ⟨st.rows.map f, st.nextId⟩ := by
  obtain ⟨hnd, hlt⟩ := hwf
  refine ⟨?_, ?_⟩
  · rw [List.map_map]
    have heq : ((fun r => r.id) ∘ f) = fun r => r.id := funext fun r => hf r
    rw [heq]
    exact hnd
  · intro r hr
    rcases List.mem_map.mp hr with ⟨r0, hr0, rfl⟩
    rw [hf r0]
    exact hlt r0 hr0

theorem storeWF_insert (st : EventStore) (row : EventRow) (hrow : row.id = st.nextId)
    (hwf : storeWF st) : storeWF ⟨st.rows ++ [row], st.nextId + 1⟩ := by
  obtain ⟨hnd, hlt⟩ := hwf
  refine ⟨?_, ?_⟩
  · rw [List.map_append]
    refine List.Nodup.append hnd (List.nodup_singleton _) ?_
    intro a ha hb
    simp only [List.map_cons, List.map_nil, List.mem_singleton] at hb
    subst hb
    rcases List.mem_map.mp ha with ⟨r, hr, hid⟩
    have hr' := hlt r hr
    rw [hid, hrow] at hr'
    exact lt_irrefl _ hr'
  · intro r hr
    rcases List.mem_append.mp hr with h | h
    · exact lt_trans (hlt r h) (Nat.lt_succ_self _)
    · rw [List.mem_singleton] at h
      subst h
      rw [hrow]
      exact Nat.lt_succ_self _

/-- One reconciliation step preserves store well-formedness. -/
theorem storeWF_syncCalendar (st : EventStore) (userId : String) (email : EmailRow)
    (ed : EventData) (raw : String) (gok : Bool) (gid : String) (hwf : storeWF st) :
    storeWF (syncCalendar st userId email ed raw gok gid).store := by
  by_cases helig : email.category ∈ eligibleCategories
  case neg =>
    simp only [syncCalendar, if_pos helig]
    exact hwf
  case pos =>
    simp only [syncCalendar]
    rw [if_neg (not_not_intro helig)]
    rcases hfind : findBySignature st userId (generateEventSignature ed) with _ | ev
    case none =>
      by_cases hann : email.category = "Annulation"
      · rw [if_pos hann]
        exact hwf
      · rw [if_neg hann]
        cases gok
        · simp only [Bool.false_eq_true, if_false]
          exact storeWF_insert st _ rfl hwf
        · rw [if_pos rfl]
          refine storeWF_map_id_preserving ⟨st.rows ++ [_], st.nextId + 1⟩ _ ?_
            (storeWF_insert st _ rfl hwf)
          intro r
          by_cases h : r.id = st.nextId <;> simp [h]
    case some =>
      dsimp only
      by_cases hann : email.category = "Annulation"
      · rw [if_pos hann]
        exact storeWF_filter st _ hwf
      · rw [if_neg hann]
        refine storeWF_map_id_preserving st _ ?_ hwf
        intro r
        by_cases h : r.id = ev.id <;> simp [h]

theorem runSyncSeq_countSig_le (userId : String) (ops : List ReconRequest) :
    ∀ st : EventStore, storeWF st → (∀ u s, countSig st u s ≤ 1) →
      ∀ u s, countSig (runSyncSeq userId st ops) u s ≤ 1 := by
  induction ops with
  | nil => exact fun st _ hinv => hinv
  | cons r rest ih =>
    intro st hwf hinv
    exact ih _
      (storeWF_syncCalendar st userId r.email r.eventData r.rawAiOutput r.googleOk r.googleId hwf)
      (fun u s => countSig_syncCalendar_le st userId r.email r.eventData r.rawAiOutput
        r.googleOk r.googleId hwf u s (hinv u s))

/-- C1. Reconciler exclusivity: on a well-formed store satisfying the
    at-most-one-live-row-per-(account, signature) invariant, any sequence of
    sync-calendar reconciliations of booking-type and modification-type
    emails preserves it — the route inserts only when the
    `(account, signature)` lookup finds nothing, and an update rewrites the
    found row in place keeping its signature. -/
theorem reconciler_exclusivity (userId : String) (st : EventStore) (ops : List ReconRequest)
    (hwf : storeWF st) (hinv : ∀ u s, countSig st u s ≤ 1)
    (_hops : ∀ r ∈ ops,
      r.email.category = "Prise de RDV" ∨ r.email.category = "Modification") :
    ∀ u s, countSig (runSyncSeq userId st ops) u s ≤ 1 :=
  runSyncSeq_countSig_le userId ops st hwf hinv

theorem reconciler_exclusivity_witness :
    countSig (runSyncSeq "u1" emptyStore sampleOps) "u1"
      (generateEventSignature sampleEventData) ≤ 1 :=
  reconciler_exclusivity "u1" emptyStore sampleOps
    ⟨by simp [emptyStore], by simp [emptyStore]⟩
    (fun u s => by simp [countSig, emptyStore])
    (by decide) "u1" (generateEventSignature sampleEventData)

/-- C6. Local durability on create: with no event stored for the computed
    signature and a non-cancel eligible label, the reconciler inserts the
    local row and reports `created` whether or not the external calendar
    insert succeeds; on success the provider event id is backfilled onto the
    row, on failure the row stays stored without a provider id. -/
theorem create_local_durability (st : EventStore) (userId : String) (email : EmailRow)
    (ed : EventData) (raw : String) (gid : String) (gok : Bool)
    (helig : email.category ∈ eligibleCategories)
    (hnc : email.category ≠ "Annulation")
    (hnone : findBySignature st userId (generateEventSignature ed) = none) :
    (syncCalendar st userId email ed raw gok gid).action = .created
      ∧ ∃ r ∈ (syncCalendar st userId email ed raw gok gid).store.rows,
          r.user_id = userId ∧ r.event_signature = generateEventSignature ed
            ∧ r.email_id = email.id ∧ r.title = ed.title
            ∧ r.google_event_id = (if gok then some gid else none) := by
  simp only [syncCalendar]
  rw [if_neg (not_not_intro helig), hnone]
  rw [if_neg hnc]
  cases gok
  · simp only [Bool.false_eq_true, if_false]
    refine ⟨by trivial, ?_⟩
    refine ⟨_, List.mem_append_right _ (List.mem_singleton_self _), ?_⟩
    exact ⟨rfl, rfl, rfl, rfl, rfl⟩
  · rw [if_pos rfl]
    refine ⟨rfl, ?_⟩
    refine ⟨_, List.mem_map_of_mem _ (List.mem_append_right _ (List.mem_singleton_self _)), ?_⟩
    rw [if_pos rfl]
    exact ⟨rfl, rfl, rfl, rfl, rfl⟩

theorem create_local_durability_witness :
    (syncCalendar emptyStore "u1" bookingEmail sampleEventData "raw" false "g1").action
        = .created
      ∧ ∃ r ∈ (syncCalendar emptyStore "u1" bookingEmail sampleEventData "raw" false
            "g1").store.rows,
          r.user_id = "u1" ∧ r.event_signature = generateEventSignature sampleEventData
            ∧ r.email_id = bookingEmail.id ∧ r.title = sampleEventData.title
            ∧ r.google_event_id = (if false then some "g1" else none) :=
  create_local_durability emptyStore "u1" bookingEmail sampleEventData "raw" "g1" false
    (by decide) (by decide) rfl

/-- C8. Idempotent message ingestion: over a batch of pairwise-distinct
    provider ids, a second ingestion cycle of the same batch computes an empty
    new-email list, changes nothing, fails no insert, and leaves exactly one
    stored row per ingested gmail_id. -/
theorem ingestion_idempotent (store msgs : List String)
    (hs : store.Nodup) (hm : msgs.Nodup) :
    newEmailIds (ingestCycle store msgs) msgs = []
      ∧ ingestCycle (ingestCycle store msgs) msgs = ingestCycle store msgs
      ∧ (ingestCycle store msgs).Nodup
      ∧ ∀ g ∈ msgs, (ingestCycle store msgs).count g = 1 := by
  have hbatch_nodup : (newEmailIds store msgs).Nodup := hm.filter _
  have hbatch_fresh : ∀ b ∈ newEmailIds store msgs, b ∉ store := by
    intro b hb
    have := (List.mem_filter.mp hb).2
    simpa using this
  have honce : ingestCycle store msgs = store ++ newEmailIds store msgs := by
    unfold ingestCycle insertEmailRows
    rw [if_pos ⟨hbatch_nodup, hbatch_fresh⟩]
  have hmem_once : ∀ m ∈ msgs, m ∈ ingestCycle store msgs := by
    intro m hmm
    rw [honce, List.mem_append]
    by_cases hms : m ∈ store
    · exact Or.inl hms
    · refine Or.inr (List.mem_filter.mpr ⟨hmm, ?_⟩)
      simpa using hms
  have hnew_empty : newEmailIds (ingestCycle store msgs) msgs = [] := by
    unfold newEmailIds
    rw [List.filter_eq_nil_iff]
    intro m hmm
    simp [hmem_once m hmm]
  have hnd_once : (ingestCycle store msgs).Nodup := by
    rw [honce]
    refine List.Nodup.append hs hbatch_nodup ?_
    intro a ha hb
    exact hbatch_fresh a hb ha
  refine ⟨hnew_empty, ?_, hnd_once, ?_⟩
  · show insertEmailRows (ingestCycle store msgs)
        (newEmailIds (ingestCycle store msgs) msgs) = _
    rw [hnew_empty]
    unfold insertEmailRows
    rw [if_pos ⟨List.nodup_nil, by simp⟩]
    exact List.append_nil _
  · intro m hmm
    exact List.count_eq_one_of_mem hnd_once (hmem_once m hmm)

theorem ingestion_idempotent_witness :
    newEmailIds (ingestCycle [] ["m1", "m2", "m3", "m4", "m5"]) ["m1", "m2", "m3", "m4", "m5"]
        = []
      ∧ ingestCycle (ingestCycle [] ["m1", "m2", "m3", "m4", "m5"])
            ["m1", "m2", "m3", "m4", "m5"]
          = ingestCycle [] ["m1", "m2", "m3", "m4", "m5"]
      ∧ (ingestCycle [] ["m1", "m2", "m3", "m4", "m5"]).Nodup
      ∧ ∀ g ∈ ["m1", "m2", "m3", "m4", "m5"],
          (ingestCycle [] ["m1", "m2", "m3", "m4", "m5"]).count g = 1 :=
  ingestion_idempotent [] ["m1", "m2", "m3", "m4", "m5"] (by decide) (by decide)

theorem mem_of_getElem?_eq_some {α : Type} {l : List α} {i : Nat} {a : α}
    (h : l[i]? = some a) : a ∈ l := by
  rcases List.getElem?_eq_some.mp h with ⟨hlt, rfl⟩
  exact List.getElem_mem hlt

theorem prec_of_split (A B : List SyncStep)
    (hA : ∀ v, SyncStep.cursorUpdate v ∉ A)
    (hB : ∀ (n : Nat) (k : Bool), SyncStep.insertEmails n k ∉ B) :
    insertsPrecedeCursor (A ++ B) := by
  intro i j n ok v hi hj
  have hiA : i < A.length := by
    by_contra hge
    push_neg at hge
    rw [List.getElem?_append, if_neg (by omega)] at hi
    exact hB n ok (mem_of_getElem?_eq_some hi)
  have hjB : A.length ≤ j := by
    by_contra hlt
    push_neg at hlt
    rw [List.getElem?_append, if_pos hlt] at hj
    exact hA v (mem_of_getElem?_eq_some hj)
  omega

theorem noCursor_histPart (inc : Bool) (v : String) :
    SyncStep.cursorUpdate v ∉ histPart inc := by
  cases inc <;> simp [histPart]

theorem noCursor_fetchPart (inc : Bool) (h : HistOutcome) (v : String) :
    SyncStep.cursorUpdate v ∉ fetchPart inc h := by
  unfold fetchPart
  split
  · intro hmem
    rcases List.mem_append.mp hmem with h1 | h2
    · exact noCursor_histPart inc v h1
    · simp at h2
  · exact noCursor_histPart inc v

theorem noCursor_insertPart (inc : Bool) (h : HistOutcome) (recent known : List String)
    (ok : Bool) (v : String) :
    SyncStep.cursorUpdate v ∉ insertPart inc h recent known ok := by
  unfold insertPart
  split
  · intro hmem
    rcases List.mem_append.mp hmem with h1 | h2
    · exact noCursor_fetchPart inc h v h1
    · simp at h2
  · exact noCursor_fetchPart inc h v

theorem syncHistoryTrace_split (c : Option String) (h : HistOutcome)
    (recent known : List String) (ok : Bool) (w : String) :
    ∃ A B, syncHistoryTrace c h recent known ok w = A ++ B
      ∧ (∀ v, SyncStep.cursorUpdate v ∉ A)
      ∧ (∀ (n : Nat) (k : Bool), SyncStep.insertEmails n k ∉ B) := by
  unfold syncHistoryTrace
  by_cases hempty : (syncMessages (syncInc c) h recent).isEmpty = true
  · rw [if_pos hempty]
    exact ⟨fetchPart (syncInc c) h, [], (List.append_nil _).symm,
      fun v => noCursor_fetchPart _ _ v, by simp⟩
  · rw [if_neg hempty]
    rcases syncLatest (syncInc c) h (c.getD "") with _ | x
    · refine ⟨insertPart (syncInc c) h recent known ok,
        [SyncStep.watchRefresh, SyncStep.cursorUpdate w], rfl,
        fun v => noCursor_insertPart _ _ _ _ _ v, ?_⟩
      intro n k hk
      simp at hk
    · refine ⟨insertPart (syncInc c) h recent known ok, [SyncStep.cursorUpdate x], rfl,
        fun v => noCursor_insertPart _ _ _ _ _ v, ?_⟩
      intro n k hk
      simp at hk

theorem prec_of_wrap (pre T : List SyncStep) (e : String)
    (hpreC : ∀ v, SyncStep.cursorUpdate v ∉ pre)
    (hT : ∃ A B, T = A ++ B ∧ (∀ v, SyncStep.cursorUpdate v ∉ A)
      ∧ (∀ (n : Nat) (k : Bool), SyncStep.insertEmails n k ∉ B)) :
    insertsPrecedeCursor (pre ++ T ++ [SyncStep.cursorUpdate e]) := by
  obtain ⟨A, B, rfl, hA, hB⟩ := hT
  have hassoc : pre ++ (A ++ B) ++ [SyncStep.cursorUpdate e]
      = (pre ++ A) ++ (B ++ [SyncStep.cursorUpdate e]) := by
    simp [List.append_assoc]
  rw [hassoc]
  refine prec_of_split _ _ ?_ ?_
  · intro v hv
    rcases List.mem_append.mp hv with h1 | h2
    · exact hpreC v h1
    · exact hA v h2
  · intro n k hk
    rcases List.mem_append.mp hk with h1 | h2
    · exact hB n k h1
    · simp at h2

/-- C7 (counterexample). The cursor is not always advanced only after the
    batch is durably stored: when the batch insert itself fails, `syncHistory`
    logs the error, proceeds, and still advances the cursor — the trace
    contains a cursor update but no successful insert. -/
theorem cursor_ordering_counterexample :
    syncHistoryTrace none none ["m1"] [] false "99"
        = [SyncStep.recentList, SyncStep.insertEmails 1 false, SyncStep.watchRefresh,
            SyncStep.cursorUpdate "99"]
      ∧ SyncStep.cursorUpdate "99" ∈ syncHistoryTrace none none ["m1"] [] false "99"
      ∧ SyncStep.insertEmails 1 true ∉ syncHistoryTrace none none ["m1"] [] false "99" := by
  refine ⟨by decide, by decide, by decide⟩

/-- C7 (amended). Store-before-cursor ordering holds as an ordering of
    attempts: in every `syncHistory` run and every push-handler run, the
    batch-insert attempt occurs strictly before every cursor update; however
    the cursor is advanced even when that insert attempt failed (see the
    counterexample). -/
theorem store_before_cursor (c : Option String) (h : HistOutcome)
    (recent known : List String) (ok : Bool) (w : String) (sc nh : Option String) :
    insertsPrecedeCursor (syncHistoryTrace c h recent known ok w)
      ∧ insertsPrecedeCursor (pushTrace sc nh w h recent known ok) := by
  constructor
  · obtain ⟨A, B, heq, hA, hB⟩ := syncHistoryTrace_split c h recent known ok w
    rw [heq]
    exact prec_of_split A B hA hB
  · simp only [pushTrace]
    refine prec_of_wrap _ _ _ ?_ (syncHistoryTrace_split _ _ _ _ _ _)
    intro v hv
    split at hv <;> simp at hv

theorem store_before_cursor_witness :
    (syncHistoryTrace none none ["m1"] [] true "99")[1]?
        = some (SyncStep.insertEmails 1 true)
      ∧ (syncHistoryTrace none none ["m1"] [] true "99")[3]?
          = some (SyncStep.cursorUpdate "99")
      ∧ (1 : Nat) < 3 :=
  ⟨by decide, by decide,
    (store_before_cursor none none ["m1"] [] true "99" none none).1 1 3 1 true "99"
      (by decide) (by decide)⟩

end EmailCalendarSync
